import Mathlib

/-!
Verification of the appointment-scheduling core of the healthcare voice
assistant repository.

The embedding covers `src/scheduling/appointment.py` (class
`AppointmentManager`) and `src/database/db_manager.py` (class
`DatabaseManager`).  The Python code manipulates calendar dates and
wall-clock times through CPython's `datetime` library, so the embedding
first models the fragment of `datetime` the code uses: proleptic Gregorian
dates, `strptime` with the formats `'%Y-%m-%d %H:%M'` and `'%Y-%m-%d'`,
`strftime` with `'%Y-%m-%d'` and `'%H:%M'`, `weekday()`, and
`timedelta` addition of minutes and days (with the `OverflowError` raised
beyond year 9999 modeled as an explicit `Option`).

The SQLite table of `db_manager.py` is modeled as a list of rows keyed by
the stored `date` and `time` TEXT columns; the `created_at`/`updated_at`
timestamp columns are not modeled (no claim mentions them).  The current
wall-clock time `datetime.now()` is passed as an explicit parameter
`now`, measured in minutes since the proleptic Gregorian epoch, matching
the minute granularity of the parsed appointment instants.
-/

namespace HVA

/-- Leap-year test, as in CPython `datetime._is_leap`:
`year % 4 == 0 and (year % 100 != 0 or year % 400 == 0)`. -/
def isLeap (y : Nat) : Bool :=
  y % 4 == 0 && (y % 100 != 0 || y % 400 == 0)

/-- Days in a month, as in CPython `datetime._days_in_month`. -/
def daysInMonth (y m : Nat) : Nat :=
  match m with
  | 1 => 31
  | 2 => if isLeap y then 29 else 28
  | 3 => 31
  | 4 => 30
  | 5 => 31
  | 6 => 30
  | 7 => 31
  | 8 => 31
  | 9 => 30
  | 10 => 31
  | 11 => 30
  | 12 => 31
  | _ => 0

/-- Days in the year before the first of a month, as in CPython
`datetime._days_before_month` (table plus leap correction). -/
def daysBeforeMonth (y m : Nat) : Nat :=
  (match m with
   | 1 => 0
   | 2 => 31
   | 3 => 59
   | 4 => 90
   | 5 => 120
   | 6 => 151
   | 7 => 181
   | 8 => 212
   | 9 => 243
   | 10 => 273
   | 11 => 304
   | 12 => 334
   | _ => 365) +
  (if 2 < m && isLeap y then 1 else 0)

/-- Days before January 1 of a year, as in CPython
`datetime._days_before_year`: `y*365 + y//4 - y//100 + y//400` with
`y = year - 1`. -/
def daysBeforeYear (y : Nat) : Nat :=
  let n := y - 1
  n * 365 + n / 4 - n / 100 + n / 400

/-- A calendar date as CPython `datetime.date` stores it. -/
structure PyDate where
  year : Nat
  month : Nat
  day : Nat
deriving DecidableEq, Repr

/-- The invariant CPython's `date` constructor enforces (`MINYEAR = 1`;
month in 1..12; day in 1..days-in-month).  The upper year bound 9999
(`MAXYEAR`) is tracked separately where needed. -/
def ValidDate (d : PyDate) : Prop :=
  1 ≤ d.year ∧ 1 ≤ d.month ∧ d.month ≤ 12 ∧ 1 ≤ d.day ∧
    d.day ≤ daysInMonth d.year d.month

instance (d : PyDate) : Decidable (ValidDate d) := by
  unfold ValidDate; infer_instance

/-- `date.toordinal()`: day number in the proleptic Gregorian calendar,
with 0001-01-01 having ordinal 1. -/
def toOrdinal (d : PyDate) : Nat :=
  daysBeforeYear d.year + daysBeforeMonth d.year d.month + d.day

/-- `date.weekday()`: Monday is 0 and Sunday is 6.  0001-01-01 is a
Monday, so the weekday is `(ordinal + 6) % 7`. -/
def pyWeekday (d : PyDate) : Nat :=
  (toOrdinal d + 6) % 7

/-- The successor date, the effect of `date + timedelta(days=1)` on a
valid date. -/
def nextDay (d : PyDate) : PyDate :=
  if d.day < daysInMonth d.year d.month then ⟨d.year, d.month, d.day + 1⟩
  else if d.month < 12 then ⟨d.year, d.month + 1, 1⟩
  else ⟨d.year + 1, 1, 1⟩

/-- `date + timedelta(days=1)` with the `OverflowError` past
`date.max = 9999-12-31` made explicit. -/
def nextDayO (d : PyDate) : Option PyDate :=
  if d = ⟨9999, 12, 31⟩ then none else some (nextDay d)

/-- A wall-clock instant as the Python code uses it: a calendar date plus
a minute-of-day (the parsed formats carry no seconds). -/
structure PyDateTime where
  date : PyDate
  minute : Nat
deriving DecidableEq, Repr

/-- `datetime.hour`. -/
def PyDateTime.hour (c : PyDateTime) : Nat := c.minute / 60

/-- Absolute minutes since the proleptic Gregorian epoch; datetime
comparison (`<`, `==`) agrees with comparison of this number. -/
def absMinutes (c : PyDateTime) : Nat :=
  toOrdinal c.date * 1440 + c.minute

/-- Iterated `date + timedelta(days=1)`. -/
def iterNextDayO : Nat → PyDate → Option PyDate
  | 0, d => some d
  | k + 1, d => (nextDayO d).bind (iterNextDayO k)

/-- `datetime + timedelta(minutes=k)`, with the `OverflowError` past
year 9999 explicit. -/
def addMinutesO (c : PyDateTime) (k : Nat) : Option PyDateTime :=
  let total := c.minute + k
  (iterNextDayO (total / 1440) c.date).map (fun d => ⟨d, total % 1440⟩)

/-! ### Parsing: CPython `strptime`

`_is_valid_datetime` and `suggest_alternative_slots` call
`datetime.strptime(f"{date} {time}", '%Y-%m-%d %H:%M')`;
`get_next_available_slot` calls `datetime.strptime(date, '%Y-%m-%d')`.
CPython's `_strptime` compiles the format to a regex: `%Y` is four
digits, `%m` is `1[0-2]|0[1-9]|[1-9]`, `%d` is `3[01]|[12]\d|0[1-9]|[1-9]`,
`%H` is `2[0-3]|[0-1]\d|\d`, `%M` is `[0-5]\d|\d`, a literal whitespace
matches one or more whitespace characters, other literals match exactly,
and any unconverted trailing input is an error.  For each numeric field,
taking two digits when they form a value in the field's two-digit set and
otherwise one digit is equivalent to the regex (whenever the two-digit
alternative matches, the following character is a digit, so the one-digit
alternative cannot lead to an overall match, and vice versa).  The
resulting numbers then pass through the `datetime` constructor, which
raises (caught by the callers) unless the year is at least `MINYEAR = 1`
and the day is at most `days_in_month`. -/

/-- `\d` of the format regexes (ASCII digits). -/
def isDig (c : Char) : Bool := 48 ≤ c.toNat && c.toNat ≤ 57

/-- `\s` of the format regexes (ASCII whitespace). -/
def isWs (c : Char) : Bool := c.toNat == 32 || (9 ≤ c.toNat && c.toNat ≤ 13)

/-- Numeric value of a digit character. -/
def dval (c : Char) : Nat := c.toNat - 48

/-- Parse a numeric field: two digits if they form a value accepted by
`valid2`, else one digit accepted by `valid1`. -/
def parse2or1 (valid2 valid1 : Nat → Bool) :
    List Char → Option (Nat × List Char)
  | c1 :: c2 :: rest =>
    if isDig c1 && isDig c2 && valid2 (dval c1 * 10 + dval c2) then
      some (dval c1 * 10 + dval c2, rest)
    else if isDig c1 && valid1 (dval c1) then some (dval c1, c2 :: rest)
    else none
  | [c1] => if isDig c1 && valid1 (dval c1) then some (dval c1, []) else none
  | [] => none

/-- `%Y`: exactly four digits. -/
def parseYear4 : List Char → Option (Nat × List Char)
  | c1 :: c2 :: c3 :: c4 :: rest =>
    if isDig c1 && isDig c2 && isDig c3 && isDig c4 then
      some (dval c1 * 1000 + dval c2 * 100 + dval c3 * 10 + dval c4, rest)
    else none
  | _ => none

/-- An exact literal character of the format. -/
def expectChar (ch : Char) : List Char → Option (List Char)
  | c :: rest => if c == ch then some rest else none
  | [] => none

/-- A literal whitespace of the format: `\s+`. -/
def expectWs : List Char → Option (List Char)
  | c :: rest => if isWs c then some (rest.dropWhile isWs) else none
  | [] => none

/-- Two-digit month set of `1[0-2]|0[1-9]`. -/
def validMonth2 (v : Nat) : Bool := 1 ≤ v && v ≤ 12

/-- One-digit month set of `[1-9]`. -/
def validMonth1 (v : Nat) : Bool := 1 ≤ v

/-- Two-digit day set of `3[01]|[12]\d|0[1-9]`. -/
def validDay2 (v : Nat) : Bool := 1 ≤ v && v ≤ 31

/-- One-digit day set of `[1-9]`. -/
def validDay1 (v : Nat) : Bool := 1 ≤ v

/-- Two-digit hour set of `2[0-3]|[0-1]\d`. -/
def validHour2 (v : Nat) : Bool := v ≤ 23

/-- Two-digit minute set of `[0-5]\d`. -/
def validMin2 (v : Nat) : Bool := v ≤ 59

/-- Any single digit (`\d`). -/
def validAny1 (_ : Nat) : Bool := true

/-- The `date` constructor checks performed after field extraction
(the field regexes already bound month ≤ 12, day ≤ 31): `MINYEAR ≤ year`
and `day ≤ days_in_month(year, month)`. -/
def mkPyDate (y m d : Nat) : Option PyDate :=
  if 1 ≤ y && d ≤ daysInMonth y m then some ⟨y, m, d⟩ else none

/-- `datetime.strptime(s, '%Y-%m-%d %H:%M')` on the character list of
`s`, returning the parsed instant. -/
def parseCombined (cs : List Char) : Option PyDateTime := do
  let (y, r1) ← parseYear4 cs
  let r2 ← expectChar (Char.ofNat 45) r1
  let (m, r3) ← parse2or1 validMonth2 validMonth1 r2
  let r4 ← expectChar (Char.ofNat 45) r3
  let (d, r5) ← parse2or1 validDay2 validDay1 r4
  let r6 ← expectWs r5
  let (hh, r7) ← parse2or1 validHour2 validAny1 r6
  let r8 ← expectChar (Char.ofNat 58) r7
  let (mi, r9) ← parse2or1 validMin2 validAny1 r8
  if r9.isEmpty then
    (mkPyDate y m d).map (fun dt => ⟨dt, hh * 60 + mi⟩)
  else none

/-- `datetime.strptime(s, '%Y-%m-%d')` on the character list of `s`. -/
def parseDateOnly (cs : List Char) : Option PyDate := do
  let (y, r1) ← parseYear4 cs
  let r2 ← expectChar (Char.ofNat 45) r1
  let (m, r3) ← parse2or1 validMonth2 validMonth1 r2
  let r4 ← expectChar (Char.ofNat 45) r3
  let (d, r5) ← parse2or1 validDay2 validDay1 r4
  if r5.isEmpty then mkPyDate y m d else none

/-! ### Formatting: `strftime`

`get_next_available_slot` and `suggest_alternative_slots` emit slots with
`strftime('%Y-%m-%d')` and `strftime('%H:%M')`: zero-padded fields.  The
two-digit pads truncate with `% 10` / `% 100`; every reachable call keeps
month ≤ 12, day ≤ 31, hour ≤ 23 and minute ≤ 59 (`ValidDate` plus
minute-of-day < 1440), where the pad is exact.  Years above 9999 cannot
be produced by CPython (`OverflowError`, which the embedding models in
`nextDayO`), so `pad4` is likewise exact on every reachable year. -/

/-- The ASCII digit character for `n < 10`. -/
def dchar (n : Nat) : Char := Char.ofNat (48 + n)

/-- Zero-padded two-digit field (`%02d` for values below 100). -/
def pad2 (n : Nat) : List Char := [dchar (n / 10 % 10), dchar (n % 10)]

/-- Zero-padded four-digit field (`%04d` for values below 10000). -/
def pad4 (n : Nat) : List Char :=
  [dchar (n / 1000 % 10), dchar (n / 100 % 10), dchar (n / 10 % 10),
   dchar (n % 10)]

/-- `date.strftime('%Y-%m-%d')`. -/
def formatDate (d : PyDate) : String :=
  ⟨pad4 d.year ++ Char.ofNat 45 :: pad2 d.month ++ Char.ofNat 45 :: pad2 d.day⟩

/-- `datetime.strftime('%H:%M')` for a minute-of-day. -/
def formatClock (t : Nat) : String :=
  ⟨pad2 (t / 60) ++ Char.ofNat 58 :: pad2 (t % 60)⟩

/-! ### The appointment store (`src/database/db_manager.py`)

The SQLite table `appointments` is a bag of rows; `date` and `time` are
TEXT columns holding exactly the strings the caller passed, and `status`
is `'scheduled'` or `'cancelled'` (the schema default and the single
UPDATE are the only writers of that column).  The autoincrement `id` is
the position in the list; `created_at`/`updated_at` are not modeled.
SQL filtering, counting, updating and ordering become list operations;
`ORDER BY time` on a TEXT column is a lexicographic sort, rendered here
as a stable insertion sort. -/

inductive Status where
  | scheduled
  | cancelled
deriving DecidableEq, Repr

/-- A row of the `appointments` table. -/
structure Row where
  date : String
  time : String
  doctor : String
  patient_notes : String
  status : Status
deriving DecidableEq, Repr

/-- The `appointments` table. -/
abbrev Db := List Row

/-- The row filter `date = ? AND time = ? AND status = 'scheduled'`
shared by the `UPDATE`s and `COUNT` queries. -/
def matchesScheduled (d t : String) (r : Row) : Bool :=
  r.date == d && r.time == t && r.status == Status.scheduled

namespace DatabaseManager

/-- `add_appointment`: a plain `INSERT` of a new `'scheduled'` row.
There is no uniqueness constraint on `(date, time)` in the schema and no
pre-check in this method, so it succeeds on any input. -/
def add_appointment (db : Db) (date time doctor notes : String) :
    Db × Bool :=
  (db ++ [⟨date, time, doctor, notes, Status.scheduled⟩], true)

/-- `get_appointments(date)`:
`SELECT * WHERE date = ? AND status = 'scheduled' ORDER BY time`.
(The no-argument branch of the Python method, which filters
`date >= date('now')`, is used by no claim and is not modeled.) -/
def get_appointments (db : Db) (date : String) : List Row :=
  List.insertionSort (fun a b => a.time ≤ b.time)
    (db.filter (fun r => r.date == date && r.status == Status.scheduled))

/-- `cancel_appointment`: `UPDATE ... SET status = 'cancelled' WHERE
date = ? AND time = ? AND status = 'scheduled'`, reporting
`rowcount > 0`. -/
def cancel_appointment (db : Db) (date time : String) : Db × Bool :=
  (db.map (fun r =>
      if matchesScheduled date time r then { r with status := Status.cancelled }
      else r),
   decide (0 < db.countP (matchesScheduled date time)))

/-- `check_availability`: `SELECT COUNT(*) WHERE date = ? AND time = ?
AND status = 'scheduled'`, then `count == 0`. -/
def check_availability (db : Db) (date time : String) : Bool :=
  db.countP (matchesScheduled date time) == 0

/-- `update_appointment_notes`: `UPDATE ... SET patient_notes = ? WHERE
date = ? AND time = ? AND status = 'scheduled'`, reporting
`rowcount > 0`. -/
def update_appointment_notes (db : Db) (date time notes : String) :
    Db × Bool :=
  (db.map (fun r =>
      if matchesScheduled date time r then { r with patient_notes := notes }
      else r),
   decide (0 < db.countP (matchesScheduled date time)))

end DatabaseManager

/-! ### The scheduling engine (`src/scheduling/appointment.py`)

`AppointmentManager` holds the configuration constants fixed by its
`__init__` and delegates persistence to the store.  Its state is the
store `db`; the wall clock `datetime.now()` is the explicit parameter
`now` (absolute minutes).  The `try/except` wrappers only catch
exceptions raised by the date/time library, which the embedding returns
as values, so no other exceptional path exists in the model. -/

namespace AppointmentManager

def WORKING_HOURS_START : Nat := 9
def WORKING_HOURS_END : Nat := 17
def APPOINTMENT_DURATION : Nat := 30
def MIN_SCHEDULE_NOTICE : Nat := 1

/-- `_is_valid_datetime`: parse `f"{date} {time}"`, then reject instants
before `now + timedelta(hours=MIN_SCHEDULE_NOTICE)`, hours outside
`[WORKING_HOURS_START, WORKING_HOURS_END)`, and weekends
(`weekday() >= 5`); a `ValueError` from parsing yields `False`. -/
def is_valid_datetime (date time : String) (now : Nat) : Bool :=
  match parseCombined (date ++ " " ++ time).data with
  | none => false
  | some dt =>
    if absMinutes dt < now + 60 * MIN_SCHEDULE_NOTICE then false
    else if dt.hour < WORKING_HOURS_START || WORKING_HOURS_END ≤ dt.hour then
      false
    else if 5 ≤ pyWeekday dt.date then false
    else true

/-- `is_available`: valid per `_is_valid_datetime`, then free per
`db.check_availability`. -/
def is_available (db : Db) (now : Nat) (date time : String) : Bool :=
  is_valid_datetime date time now &&
    DatabaseManager.check_availability db date time

/-- `schedule_appointment`: validate, check availability, then insert;
returns the new store plus the `(success, message)` pair. -/
def schedule_appointment (db : Db) (now : Nat)
    (date time doctor notes : String) : Db × Bool × String :=
  if !is_valid_datetime date time now then
    (db, false, "Invalid appointment date or time")
  else if !is_available db now date time then
    (db, false, "This time slot is not available")
  else
    let res := DatabaseManager.add_appointment db date time doctor notes
    if res.2 then (res.1, true, "Appointment scheduled successfully")
    else (res.1, false, "Failed to schedule appointment")

/-- `cancel_appointment` of the engine: delegate to the store and wrap
the outcome message. -/
def cancel_appointment (db : Db) (date time : String) : Db × Bool × String :=
  let res := DatabaseManager.cancel_appointment db date time
  if res.2 then (res.1, true, "Appointment cancelled successfully")
  else (res.1, false, "No appointment found for the specified time")

/-- `get_appointments` of the engine: delegate to the store. -/
def get_appointments (db : Db) (date : String) : List Row :=
  DatabaseManager.get_appointments db date

/-- `update_appointment_notes` of the engine: delegate and wrap. -/
def update_appointment_notes (db : Db) (date time notes : String) :
    Db × Bool × String :=
  let res := DatabaseManager.update_appointment_notes db date time notes
  if res.2 then (res.1, true, "Appointment notes updated successfully")
  else (res.1, false, "No appointment found for the specified time")

/-- The inner `while current_time < end_time` loop of
`get_next_available_slot`: sweep minute-of-day `t` in steps of
`APPOINTMENT_DURATION`, returning the first formatted slot for which
`is_available` holds.  The loop runs at most
`(17*60 - 9*60) / 30 = 16` times; the structural counter `k` is started
at 17 ≥ 16 + 1 by the caller, so it never runs out before `t` reaches
`end_time`. -/
def scanTimes (db : Db) (now : Nat) (d : PyDate) :
    Nat → Nat → Option (String × String)
  | 0, _ => none
  | k + 1, t =>
    if t < WORKING_HOURS_END * 60 then
      if is_available db now (formatDate d) (formatClock t) then
        some (formatDate d, formatClock t)
      else scanTimes db now d k (t + APPOINTMENT_DURATION)
    else none

/-- The outer `for _ in range(30)` loop of `get_next_available_slot`:
scan each day, then advance `current_date` by one day; the
`OverflowError` past year 9999 is caught by the method's `except`, which
returns `None` just as the exhausted loop does. -/
def scanDays (db : Db) (now : Nat) : Nat → PyDate → Option (String × String)
  | 0, _ => none
  | k + 1, d =>
    match scanTimes db now d 17 (WORKING_HOURS_START * 60) with
    | some p => some p
    | none =>
      match nextDayO d with
      | none => none
      | some d2 => scanDays db now k d2

/-- `get_next_available_slot`: parse the starting date (a `ValueError`
is caught and yields `None`), then scan up to 30 days. -/
def get_next_available_slot (db : Db) (now : Nat) (date : String) :
    Option (String × String) :=
  match parseDateOnly date.data with
  | none => none
  | some d => scanDays db now 30 d

/-- The `while current_dt.weekday() >= 5` loop of
`suggest_alternative_slots`: move to the next day's opening hour while
the day is a weekend.  The loop body runs at most twice (Saturday then
Sunday); the structural counter is started at 7.  `none` models the
`OverflowError` past year 9999, caught by the method's `except`. -/
def skipWeekendsO : Nat → PyDateTime → Option PyDateTime
  | 0, c => some c
  | k + 1, c =>
    if 5 ≤ pyWeekday c.date then
      (nextDayO c.date).bind
        (fun d2 => skipWeekendsO k ⟨d2, WORKING_HOURS_START * 60⟩)
    else some c

/-- One iteration of the candidate advance in `suggest_alternative_slots`:
add `APPOINTMENT_DURATION` minutes; if the hour passed
`WORKING_HOURS_END`, reset to the next day's opening hour; then skip
weekend days.  `none` models the `OverflowError` past year 9999. -/
def stepCandidate (c : PyDateTime) : Option PyDateTime :=
  match addMinutesO c APPOINTMENT_DURATION with
  | none => none
  | some c1 =>
    let c2res : Option PyDateTime :=
      if WORKING_HOURS_END ≤ c1.hour then
        (nextDayO c1.date).map (fun d2 => ⟨d2, WORKING_HOURS_START * 60⟩)
      else some c1
    match c2res with
    | none => none
    | some c2 => skipWeekendsO 7 c2

/-- The `while len(suggestions) < num_suggestions and len(suggestions)
< 10` loop of `suggest_alternative_slots`.  The loop condition bounds the
suggestions collected, not the candidates examined, so the loop has no
intrinsic bound on its iteration count; `fuel` counts loop iterations
still allowed to run, and a result of `none` means the loop was still
running after `fuel` iterations (each iteration examines exactly one
candidate).  A date `OverflowError` inside the body is caught by the
method's `except`, which returns `[]`. -/
def suggestLoop (db : Db) (now : Nat) (n : Nat) :
    PyDateTime → List (String × String) → Nat → Option (List (String × String))
  | _, _, 0 => none
  | cur, acc, fuel + 1 =>
    if acc.length < n && acc.length < 10 then
      match stepCandidate cur with
      | none => some []
      | some c3 =>
        suggestLoop db now n c3
          (if is_available db now (formatDate c3.date) (formatClock c3.minute)
           then acc ++ [(formatDate c3.date, formatClock c3.minute)]
           else acc) fuel
    else some acc

/-- `suggest_alternative_slots`: parse the preferred instant (a
`ValueError` is caught and yields `[]`), then run the collection loop
with `fuel` iterations allowed; `none` means the loop was still running
after `fuel` candidates. -/
def suggest_alternative_slots (db : Db) (now : Nat) (date time : String)
    (n : Nat) (fuel : Nat) : Option (List (String × String)) :=
  match parseCombined (date ++ " " ++ time).data with
  | none => some []
  | some dt => suggestLoop db now n dt [] fuel

end AppointmentManager

/-! ### Statement-side definitions

Derived notions used to state the claims: the candidate enumeration that
`get_next_available_slot` sweeps, the chronological key and the
working-hours/weekday soundness of an emitted `(date, time)` slot pair,
and the uniqueness invariant of the store. -/

/-- The `(date, time)` pairs the inner loop of `get_next_available_slot`
sweeps on day `d`: minute-of-day `t`, then steps of
`APPOINTMENT_DURATION`, strictly below `WORKING_HOURS_END`. -/
def sweepTimes (d : PyDate) : Nat → Nat → List (String × String)
  | 0, _ => []
  | k + 1, t =>
    if t < AppointmentManager.WORKING_HOURS_END * 60 then
      (formatDate d, formatClock t) ::
        sweepTimes d k (t + AppointmentManager.APPOINTMENT_DURATION)
    else []

/-- The `(date, time)` pairs `get_next_available_slot` examines, in scan
order: `k` consecutive days from `d`, each swept from
`WORKING_HOURS_START` (the day sequence stops at the calendar's end,
where the Python loop dies of the caught `OverflowError`). -/
def sweepDays : Nat → PyDate → List (String × String)
  | 0, _ => []
  | k + 1, d =>
    sweepTimes d 17 (AppointmentManager.WORKING_HOURS_START * 60) ++
      (match nextDayO d with
       | none => []
       | some d2 => sweepDays k d2)

/-- The chronological key of an emitted slot pair: the absolute minutes
of its parsed instant (0 if it does not parse back). -/
def slotMinutes (p : String × String) : Nat :=
  match parseCombined (p.1 ++ " " ++ p.2).data with
  | some c => absMinutes c
  | none => 0

/-- An emitted slot pair parses back to an instant that lies within
working hours and on a working weekday. -/
def slotOk (p : String × String) : Bool :=
  match parseCombined (p.1 ++ " " ++ p.2).data with
  | some c =>
    AppointmentManager.WORKING_HOURS_START ≤ c.hour &&
      c.hour < AppointmentManager.WORKING_HOURS_END && pyWeekday c.date < 5
  | none => false

/-- The published invariant: at most one `'scheduled'` row per stored
`(date, time)` key. -/
def UniqueScheduled (db : Db) : Prop :=
  ∀ d t : String, db.countP (matchesScheduled d t) ≤ 1

/-! ### Calendar lemmas -/

lemma daysInMonth_pos (y m : Nat) (h1 : 1 ≤ m) (h2 : m ≤ 12) :
    1 ≤ daysInMonth y m := by
  have h : isLeap y = true ∨ isLeap y = false := by cases isLeap y <;> simp
  interval_cases m <;> rcases h with h | h <;> simp [daysInMonth, h]

lemma nextDay_valid {d : PyDate} (h : ValidDate d) : ValidDate (nextDay d) := by
  obtain ⟨y, m, dd⟩ := d
  obtain ⟨h1, h2, h3, h4, h5⟩ := h
  simp only at h1 h2 h3 h4 h5
  unfold nextDay
  split <;> rename_i hc1
  · have hc : dd < daysInMonth y m := hc1
    exact ⟨h1, h2, h3, (by omega : 1 ≤ dd + 1),
      (by omega : dd + 1 ≤ daysInMonth y m)⟩
  · split <;> rename_i hc2
    · have hc : m < 12 := hc2
      exact ⟨h1, (by omega : 1 ≤ m + 1), (by omega : m + 1 ≤ 12), le_refl 1,
        daysInMonth_pos y (m + 1) (by omega) (by omega)⟩
    · exact ⟨(by omega : 1 ≤ y + 1), le_refl 1, (by omega : (1 : Nat) ≤ 12),
        le_refl 1, (by simp [daysInMonth] : 1 ≤ daysInMonth (y + 1) 1)⟩

lemma daysBeforeMonth_succ (y m : Nat) (h1 : 1 ≤ m) (h2 : m ≤ 11) :
    daysBeforeMonth y (m + 1) = daysBeforeMonth y m + daysInMonth y m := by
  interval_cases m <;>
    simp [daysBeforeMonth, daysInMonth] <;> cases isLeap y <;> simp

lemma daysBeforeYear_succ (y : Nat) (hy : 1 ≤ y) :
    daysBeforeYear (y + 1) =
      daysBeforeYear y + 365 + (if isLeap y then 1 else 0) := by
  unfold daysBeforeYear isLeap
  simp only [Nat.add_sub_cancel]
  have h4 : y / 4 = (y - 1) / 4 + if 4 ∣ y then 1 else 0 := by
    obtain ⟨z, rfl⟩ : ∃ z, y = z + 1 := ⟨y - 1, by omega⟩
    simpa using Nat.succ_div z 4
  have h100 : y / 100 = (y - 1) / 100 + if 100 ∣ y then 1 else 0 := by
    obtain ⟨z, rfl⟩ : ∃ z, y = z + 1 := ⟨y - 1, by omega⟩
    simpa using Nat.succ_div z 100
  have h400 : y / 400 = (y - 1) / 400 + if 400 ∣ y then 1 else 0 := by
    obtain ⟨z, rfl⟩ : ∃ z, y = z + 1 := ⟨y - 1, by omega⟩
    simpa using Nat.succ_div z 400
  have d1 : (y - 1) / 100 ≤ (y - 1) / 4 := by
    exact Nat.div_le_div_left (by omega) (by omega)
  have d2 : (y - 1) / 400 ≤ (y - 1) / 100 := by
    exact Nat.div_le_div_left (by omega) (by omega)
  have e4 : (4 ∣ y) ↔ y % 4 = 0 := Nat.dvd_iff_mod_eq_zero
  have e100 : (100 ∣ y) ↔ y % 100 = 0 := Nat.dvd_iff_mod_eq_zero
  have e400 : (400 ∣ y) ↔ y % 400 = 0 := Nat.dvd_iff_mod_eq_zero
  have m1 : y % 400 = 0 → y % 4 = 0 := by omega
  have m2 : y % 400 = 0 → y % 100 = 0 := by omega
  have m3 : y % 100 = 0 → y % 4 = 0 := by omega
  rw [h4, h100, h400]
  simp only [e4, e100, e400]
  split <;> split <;> split <;> split <;> simp_all <;> omega

lemma toOrdinal_nextDay {d : PyDate} (h : ValidDate d) :
    toOrdinal (nextDay d) = toOrdinal d + 1 := by
  obtain ⟨h1, h2, h3, h4, h5⟩ := h
  unfold nextDay toOrdinal
  split
  · simp; omega
  · split
    · have := daysBeforeMonth_succ d.year d.month h2 (by omega)
      simp only
      omega
    · have hm : d.month = 12 := by omega
      have hd : d.day = 31 := by
        have : daysInMonth d.year d.month = 31 := by rw [hm]; rfl
        omega
      have := daysBeforeYear_succ d.year h1
      simp only
      rw [hm] at h5 ⊢
      simp [daysBeforeMonth, daysInMonth] at h5 ⊢
      split at this <;> split <;> simp_all

lemma nextDay_year_le {d : PyDate} (hv : ValidDate d) (hy : d.year ≤ 9999)
    (hne : d ≠ ⟨9999, 12, 31⟩) : (nextDay d).year ≤ 9999 := by
  obtain ⟨y, m, dd⟩ := d
  obtain ⟨h1, h2, h3, h4, h5⟩ := hv
  simp only at h1 h2 h3 h4 h5 hy hne
  unfold nextDay
  split
  · exact hy
  · split
    · exact hy
    · rename_i hlt hm
      simp only at hlt hm ⊢
      have hm12 : m = 12 := by omega
      have hd31 : dd = 31 := by
        subst hm12
        simp [daysInMonth] at h5 hlt
        omega
      have : y ≠ 9999 := fun hy9 => hne (by simp [hy9, hm12, hd31])
      omega

lemma nextDayO_spec {d d2 : PyDate} (hv : ValidDate d) (hy : d.year ≤ 9999)
    (h : nextDayO d = some d2) :
    ValidDate d2 ∧ d2.year ≤ 9999 ∧ toOrdinal d2 = toOrdinal d + 1 := by
  unfold nextDayO at h
  split at h
  · exact absurd h (by simp)
  · rename_i hne
    simp only [Option.some.injEq] at h
    subst h
    exact ⟨nextDay_valid hv, nextDay_year_le hv hy hne, toOrdinal_nextDay hv⟩

lemma pyWeekday_nextDay {d : PyDate} (h : ValidDate d) :
    pyWeekday (nextDay d) = (pyWeekday d + 1) % 7 := by
  unfold pyWeekday
  rw [toOrdinal_nextDay h]
  omega

lemma pyWeekday_lt (d : PyDate) : pyWeekday d < 7 := by
  unfold pyWeekday; omega

lemma daysInMonth_le (y m : Nat) : daysInMonth y m ≤ 31 := by
  unfold daysInMonth
  split <;> first | omega | (split <;> omega)

lemma iterNextDayO_spec : ∀ {n : Nat} {d d2 : PyDate}, ValidDate d →
    d.year ≤ 9999 → iterNextDayO n d = some d2 →
    ValidDate d2 ∧ d2.year ≤ 9999 ∧ toOrdinal d2 = toOrdinal d + n := by
  intro n
  induction n with
  | zero =>
    intro d d2 hv hy h
    simp [iterNextDayO] at h
    subst h
    exact ⟨hv, hy, rfl⟩
  | succ k ih =>
    intro d d2 hv hy h
    simp only [iterNextDayO, Option.bind_eq_bind] at h
    rcases hnd : nextDayO d with _ | d1
    · rw [hnd] at h; simp at h
    · rw [hnd] at h
      simp only [Option.bind_eq_bind, Option.some_bind] at h
      obtain ⟨hv1, hy1, hord1⟩ := nextDayO_spec hv hy hnd
      obtain ⟨hv2, hy2, hord2⟩ := ih hv1 hy1 h
      exact ⟨hv2, hy2, by omega⟩

lemma addMinutesO_spec {c c1 : PyDateTime} {k : Nat} (hv : ValidDate c.date)
    (hy : c.date.year ≤ 9999) (h : addMinutesO c k = some c1) :
    ValidDate c1.date ∧ c1.date.year ≤ 9999 ∧ c1.minute < 1440 ∧
      absMinutes c1 = absMinutes c + k := by
  simp only [addMinutesO] at h
  rcases hit : iterNextDayO ((c.minute + k) / 1440) c.date with _ | d2
  · rw [hit] at h; simp at h
  · rw [hit] at h
    have h2 : (⟨d2, (c.minute + k) % 1440⟩ : PyDateTime) = c1 := by
      simpa using h
    obtain ⟨hv2, hy2, hord⟩ := iterNextDayO_spec hv hy hit
    subst h2
    refine ⟨hv2, hy2, Nat.mod_lt _ (by omega), ?_⟩
    unfold absMinutes
    simp only [hord]
    have := Nat.div_add_mod (c.minute + k) 1440
    omega

/-! ### Parsing and formatting lemmas -/

lemma isDig_bounds {c : Char} (h : isDig c = true) :
    48 ≤ c.toNat ∧ c.toNat ≤ 57 := by
  unfold isDig at h
  simp at h
  exact h

lemma dval_le_of_isDig {c : Char} (h : isDig c = true) : dval c ≤ 9 := by
  obtain ⟨h1, h2⟩ := isDig_bounds h
  unfold dval
  omega

lemma dchar_toNat {k : Nat} (h : k < 10) : (dchar k).toNat = 48 + k := by
  interval_cases k <;> decide

lemma isDig_dchar {k : Nat} (h : k < 10) : isDig (dchar k) = true := by
  unfold isDig
  rw [dchar_toNat h]
  simp
  omega

lemma dval_dchar {k : Nat} (h : k < 10) : dval (dchar k) = k := by
  unfold dval
  rw [dchar_toNat h]
  omega

lemma isWs_dchar {k : Nat} (h : k < 10) : isWs (dchar k) = false := by
  unfold isWs
  rw [dchar_toNat h]
  simp
  omega

lemma parse2or1_pad2 {v2 v1 : Nat → Bool} {n : Nat} (hn : n ≤ 99)
    (h2 : v2 n = true) (rest : List Char) :
    parse2or1 v2 v1 (pad2 n ++ rest) = some (n, rest) := by
  have ha : n / 10 % 10 < 10 := Nat.mod_lt _ (by omega)
  have hb : n % 10 < 10 := Nat.mod_lt _ (by omega)
  have hval : dval (dchar (n / 10 % 10)) * 10 + dval (dchar (n % 10)) = n := by
    rw [dval_dchar ha, dval_dchar hb]
    omega
  unfold pad2
  simp only [List.cons_append, List.nil_append, parse2or1]
  rw [isDig_dchar ha, isDig_dchar hb, hval]
  simp [h2]

lemma parseYear4_pad4 {y : Nat} (hy : y ≤ 9999) (rest : List Char) :
    parseYear4 (pad4 y ++ rest) = some (y, rest) := by
  have h1 : y / 1000 % 10 < 10 := Nat.mod_lt _ (by omega)
  have h2 : y / 100 % 10 < 10 := Nat.mod_lt _ (by omega)
  have h3 : y / 10 % 10 < 10 := Nat.mod_lt _ (by omega)
  have h4 : y % 10 < 10 := Nat.mod_lt _ (by omega)
  unfold pad4
  simp only [List.cons_append, List.nil_append, parseYear4]
  rw [isDig_dchar h1, isDig_dchar h2, isDig_dchar h3, isDig_dchar h4,
    dval_dchar h1, dval_dchar h2, dval_dchar h3, dval_dchar h4]
  simp only [Bool.and_self, if_true]
  congr 2
  omega

lemma expectChar_cons (ch : Char) (rest : List Char) :
    expectChar ch (ch :: rest) = some rest := by
  simp [expectChar]

lemma expectWs_space {k : Nat} (hk : k < 10) (rest : List Char) :
    expectWs (Char.ofNat 32 :: dchar k :: rest) = some (dchar k :: rest) := by
  have h1 : isWs (Char.ofNat 32) = true := by decide
  simp [expectWs, h1, List.dropWhile, isWs_dchar hk]

/-- Formatting a valid instant and parsing it back is the identity. -/
lemma parse_format_roundtrip {d : PyDate} {t : Nat} (hv : ValidDate d)
    (hy : d.year ≤ 9999) (ht : t < 1440) :
    parseCombined ((formatDate d) ++ " " ++ (formatClock t)).data =
      some ⟨d, t⟩ := by
  obtain ⟨h1, h2, h3, h4, h5⟩ := hv
  have hm99 : d.month ≤ 99 := by omega
  have hd31 : d.day ≤ 31 := le_trans h5 (daysInMonth_le _ _)
  have hd99 : d.day ≤ 99 := by omega
  have hh23 : t / 60 ≤ 23 := by omega
  have hmi59 : t % 60 ≤ 59 := Nat.le_of_lt_succ (Nat.mod_lt _ (by omega))
  have hdata : ((formatDate d) ++ " " ++ (formatClock t)).data =
      pad4 d.year ++ Char.ofNat 45 :: (pad2 d.month ++
        Char.ofNat 45 :: (pad2 d.day ++ Char.ofNat 32 :: (pad2 (t / 60) ++
          Char.ofNat 58 :: (pad2 (t % 60) ++ [])))) := by
    show (formatDate d).data ++ " ".data ++ (formatClock t).data = _
    show (pad4 d.year ++ Char.ofNat 45 :: pad2 d.month ++
        Char.ofNat 45 :: pad2 d.day) ++ [Char.ofNat 32] ++
        (pad2 (t / 60) ++ Char.ofNat 58 :: pad2 (t % 60)) = _
    simp
  rw [hdata]
  unfold parseCombined
  rw [parseYear4_pad4 hy]
  simp only [Option.bind_eq_bind, Option.some_bind]
  rw [expectChar_cons]
  simp only [Option.some_bind]
  rw [parse2or1_pad2 hm99 (by simp [validMonth2]; omega)]
  simp only [Option.some_bind]
  rw [expectChar_cons]
  simp only [Option.some_bind]
  rw [parse2or1_pad2 hd99 (by simp [validDay2]; omega)]
  simp only [Option.some_bind]
  have hfirst : pad2 (t / 60) ++ Char.ofNat 58 :: (pad2 (t % 60) ++ []) =
      dchar (t / 60 / 10 % 10) :: dchar (t / 60 % 10) ::
        (Char.ofNat 58 :: (pad2 (t % 60) ++ [])) := by
    simp [pad2]
  rw [hfirst, expectWs_space (Nat.mod_lt _ (by omega))]
  simp only [Option.some_bind]
  have hback : dchar (t / 60 / 10 % 10) :: dchar (t / 60 % 10) ::
      (Char.ofNat 58 :: (pad2 (t % 60) ++ [])) =
      pad2 (t / 60) ++ Char.ofNat 58 :: (pad2 (t % 60) ++ []) := by
    simp [pad2]
  rw [hback]
  rw [parse2or1_pad2 (show t / 60 ≤ 99 by omega) (by simp [validHour2]; omega)]
  simp only [Option.some_bind]
  rw [expectChar_cons]
  simp only [Option.some_bind]
  rw [parse2or1_pad2 (by omega) (by simp [validMin2]; omega)]
  simp only [Option.some_bind, List.isEmpty_nil, if_true]
  unfold mkPyDate
  rw [if_pos (by simp only [Bool.and_eq_true, decide_eq_true_eq]; exact ⟨h1, h5⟩)]
  have hmin : t / 60 * 60 + t % 60 = t := by omega
  show some (⟨⟨d.year, d.month, d.day⟩, t / 60 * 60 + t % 60⟩ : PyDateTime) =
    some ⟨d, t⟩
  rw [hmin]


lemma parse2or1_some {v2 v1 : Nat → Bool} {cs r : List Char} {v : Nat}
    (h : parse2or1 v2 v1 cs = some (v, r)) :
    (v2 v = true ∧ v ≤ 99) ∨ (v1 v = true ∧ v ≤ 9) := by
  match cs with
  | [] => simp [parse2or1] at h
  | [c1] =>
    rw [parse2or1] at h
    split at h
    · rename_i hc
      simp only [Bool.and_eq_true] at hc
      simp only [Option.some.injEq, Prod.mk.injEq] at h
      right
      exact ⟨h.1 ▸ hc.2, h.1 ▸ dval_le_of_isDig hc.1⟩
    · simp at h
  | c1 :: c2 :: rest =>
    rw [parse2or1] at h
    split at h
    · rename_i hc
      simp only [Bool.and_eq_true] at hc
      simp only [Option.some.injEq, Prod.mk.injEq] at h
      left
      refine ⟨h.1 ▸ hc.2, ?_⟩
      have := dval_le_of_isDig hc.1.1
      have := dval_le_of_isDig hc.1.2
      omega
    · split at h
      · rename_i hc
        simp only [Bool.and_eq_true] at hc
        simp only [Option.some.injEq, Prod.mk.injEq] at h
        right
        exact ⟨h.1 ▸ hc.2, h.1 ▸ dval_le_of_isDig hc.1⟩
      · simp at h

lemma parseYear4_some {cs r : List Char} {y : Nat}
    (h : parseYear4 cs = some (y, r)) : y ≤ 9999 := by
  match cs with
  | [] | [_] | [_, _] | [_, _, _] => simp [parseYear4] at h
  | c1 :: c2 :: c3 :: c4 :: rest =>
    rw [parseYear4] at h
    split at h
    · rename_i hc
      simp only [Bool.and_eq_true] at hc
      simp only [Option.some.injEq, Prod.mk.injEq] at h
      have := dval_le_of_isDig hc.1.1.1
      have := dval_le_of_isDig hc.1.1.2
      have := dval_le_of_isDig hc.1.2
      have := dval_le_of_isDig hc.2
      omega
    · simp at h

/-- Any successfully parsed instant satisfies the datetime invariants:
a valid date, year at most 9999, minute-of-day below 1440. -/
lemma parseCombined_some_spec {cs : List Char} {c : PyDateTime}
    (h : parseCombined cs = some c) :
    ValidDate c.date ∧ c.date.year ≤ 9999 ∧ c.minute < 1440 := by
  unfold parseCombined at h
  rcases hY : parseYear4 cs with _ | ⟨y, r1⟩ <;> rw [hY] at h
  · simp at h
  · simp only [Option.bind_eq_bind, Option.some_bind] at h
    rcases hC1 : expectChar (Char.ofNat 45) r1 with _ | r2 <;> rw [hC1] at h
    · simp at h
    · simp only [Option.bind_eq_bind, Option.some_bind] at h
      rcases hM : parse2or1 validMonth2 validMonth1 r2 with _ | ⟨m, r3⟩ <;>
        rw [hM] at h
      · simp at h
      · simp only [Option.bind_eq_bind, Option.some_bind] at h
        rcases hC2 : expectChar (Char.ofNat 45) r3 with _ | r4 <;> rw [hC2] at h
        · simp at h
        · simp only [Option.bind_eq_bind, Option.some_bind] at h
          rcases hD : parse2or1 validDay2 validDay1 r4 with _ | ⟨dd, r5⟩ <;>
            rw [hD] at h
          · simp at h
          · simp only [Option.bind_eq_bind, Option.some_bind] at h
            rcases hW : expectWs r5 with _ | r6 <;> rw [hW] at h
            · simp at h
            · simp only [Option.bind_eq_bind, Option.some_bind] at h
              rcases hH : parse2or1 validHour2 validAny1 r6 with _ | ⟨hh, r7⟩ <;>
                rw [hH] at h
              · simp at h
              · simp only [Option.bind_eq_bind, Option.some_bind] at h
                rcases hC3 : expectChar (Char.ofNat 58) r7 with _ | r8 <;>
                  rw [hC3] at h
                · simp at h
                · simp only [Option.bind_eq_bind, Option.some_bind] at h
                  rcases hMi : parse2or1 validMin2 validAny1 r8 with _ | ⟨mi, r9⟩ <;>
                    rw [hMi] at h
                  · simp at h
                  · simp only [Option.bind_eq_bind, Option.some_bind] at h
                    split at h
                    · unfold mkPyDate at h
                      split at h <;> rename_i hcon
                      · simp only [Option.map_some', Option.some.injEq] at h
                        simp only [Bool.and_eq_true, decide_eq_true_eq] at hcon
                        have hy : y ≤ 9999 := parseYear4_some hY
                        have hm : 1 ≤ m ∧ m ≤ 12 := by
                          rcases parse2or1_some hM with ⟨h2, _⟩ | ⟨h2, hb⟩
                          · simpa [validMonth2] using h2
                          · simp [validMonth1] at h2
                            omega
                        have hd : 1 ≤ dd := by
                          rcases parse2or1_some hD with ⟨h2, _⟩ | ⟨h2, _⟩
                          · simp [validDay2] at h2
                            omega
                          · simp [validDay1] at h2
                            omega
                        have hhh : hh ≤ 23 := by
                          rcases parse2or1_some hH with ⟨h2, _⟩ | ⟨_, hb⟩
                          · simpa [validHour2] using h2
                          · omega
                        have hmi : mi ≤ 59 := by
                          rcases parse2or1_some hMi with ⟨h2, _⟩ | ⟨_, hb⟩
                          · simpa [validMin2] using h2
                          · omega
                        subst h
                        exact ⟨⟨hcon.1, hm.1, hm.2, hd, hcon.2⟩, hy,
                          (by omega : hh * 60 + mi < 1440)⟩
                      · simp at h
                    · simp at h


/-! ### Store lemmas -/

lemma countP_map_le {α : Type} (p : α → Bool) (f : α → α) (l : List α)
    (h : ∀ a, p (f a) = true → p a = true) :
    (l.map f).countP p ≤ l.countP p := by
  induction l with
  | nil => simp
  | cons a l ih =>
    simp only [List.map_cons, List.countP_cons]
    have ha := h a
    cases hpf : p (f a) with
    | false =>
      cases hpa : p a with
      | false => simpa [hpf, hpa] using ih
      | true =>
        simp only [hpf, hpa]
        simp only [if_neg (by simp : ¬false = true), if_pos rfl]
        omega
    | true =>
      have hpa : p a = true := ha hpf
      simp only [hpf, hpa, if_pos rfl]
      omega

lemma countP_map_eq {α : Type} (p : α → Bool) (f : α → α) (l : List α)
    (h : ∀ a, p (f a) = p a) : (l.map f).countP p = l.countP p := by
  induction l with
  | nil => simp
  | cons a l ih => simp only [List.map_cons, List.countP_cons, h a, ih]

lemma map_eq_self_of {α : Type} {f : α → α} {l : List α}
    (h : ∀ a ∈ l, f a = a) : l.map f = l := by
  induction l with
  | nil => simp
  | cons a l ih =>
    simp only [List.map_cons, h a (by simp)]
    rw [ih (fun a ha => h a (by simp [ha]))]

lemma check_availability_iff {db : Db} {d t : String} :
    DatabaseManager.check_availability db d t = true ↔
      db.countP (matchesScheduled d t) = 0 := by
  unfold DatabaseManager.check_availability
  simp

/-- The updated row of a `cancel` UPDATE. -/
lemma cancelRow_not_matches (d t : String) (r : Row) :
    matchesScheduled d t
      (if matchesScheduled d t r then { r with status := Status.cancelled }
       else r) = false := by
  by_cases h : matchesScheduled d t r = true
  · rw [if_pos h]
    unfold matchesScheduled at *
    simp_all
  · rw [if_neg h]
    simp_all

lemma cancel_map_no_match {db : Db} {d t : String} :
    ∀ r ∈ (DatabaseManager.cancel_appointment db d t).1,
      matchesScheduled d t r = false := by
  intro r hr
  unfold DatabaseManager.cancel_appointment at hr
  simp only [List.mem_map] at hr
  obtain ⟨a, _, rfl⟩ := hr
  exact cancelRow_not_matches d t a

lemma cancel_of_no_match {db : Db} {d t : String}
    (h : ∀ r ∈ db, matchesScheduled d t r = false) :
    DatabaseManager.cancel_appointment db d t = (db, false) := by
  unfold DatabaseManager.cancel_appointment
  have hc : db.countP (matchesScheduled d t) = 0 := by
    rw [List.countP_eq_zero]
    intro a ha
    simp [h a ha]
  rw [hc]
  simp only [decide_eq_false (by omega : ¬ 0 < 0)]
  rw [map_eq_self_of (fun a ha => by rw [if_neg (by simp [h a ha])])]

/-! ### Claim theorems: store layer -/

/-- C1: if at most one `'scheduled'` row exists per stored `(date, time)`
key, then each engine operation — `schedule_appointment`,
`cancel_appointment`, `update_appointment_notes` — preserves that
invariant; moreover `schedule_appointment` changes the store only when
the prior `check_availability` call reported the key free (and the
validation passed), in which case it appends exactly the one new row. -/
theorem engine_ops_preserve_unique_scheduled
    (db : Db) (now : Nat) (date time doctor notes : String)
    (hinv : UniqueScheduled db) :
    UniqueScheduled
      (AppointmentManager.schedule_appointment db now date time doctor notes).1 ∧
    UniqueScheduled (AppointmentManager.cancel_appointment db date time).1 ∧
    UniqueScheduled
      (AppointmentManager.update_appointment_notes db date time notes).1 ∧
    ((AppointmentManager.schedule_appointment db now date time doctor notes).1
        ≠ db →
      AppointmentManager.is_valid_datetime date time now = true ∧
      DatabaseManager.check_availability db date time = true ∧
      (AppointmentManager.schedule_appointment db now date time doctor notes).1
        = db ++ [⟨date, time, doctor, notes, Status.scheduled⟩]) := by
  have hsched : ∀ hva : AppointmentManager.is_available db now date time = true,
      UniqueScheduled (db ++ [⟨date, time, doctor, notes, Status.scheduled⟩]) := by
    intro hva
    have hfree : db.countP (matchesScheduled date time) = 0 := by
      unfold AppointmentManager.is_available at hva
      simp only [Bool.and_eq_true] at hva
      exact check_availability_iff.mp hva.2
    intro d0 t0
    rw [List.countP_append]
    by_cases hk : d0 = date ∧ t0 = time
    · obtain ⟨rfl, rfl⟩ := hk
      have : List.countP (matchesScheduled d0 t0)
          [⟨d0, t0, doctor, notes, Status.scheduled⟩] = 1 := by
        simp [List.countP_cons, matchesScheduled]
      omega
    · have hz : List.countP (matchesScheduled d0 t0)
          [⟨date, time, doctor, notes, Status.scheduled⟩] = 0 := by
        have hne2 : ¬(date = d0 ∧ time = t0) :=
          fun hp => hk ⟨hp.1.symm, hp.2.symm⟩
        by_cases h1 : date = d0
        · by_cases h2 : time = t0
          · exact absurd ⟨h1, h2⟩ hne2
          · simp [matchesScheduled, List.countP_cons, h2]
        · simp [matchesScheduled, List.countP_cons, h1]
      have := hinv d0 t0
      omega
  refine ⟨?_, ?_, ?_, ?_⟩
  · unfold AppointmentManager.schedule_appointment
    split
    · exact hinv
    · split
      · exact hinv
      · rename_i hv ha
        simp only [Bool.not_eq_eq_eq_not, Bool.not_true, Bool.not_eq_false] at ha
        exact hsched ha
  · unfold AppointmentManager.cancel_appointment
    intro d0 t0
    dsimp only
    split <;>
      exact le_trans
        (countP_map_le _ _ _ (fun a => by
          by_cases h : matchesScheduled date time a = true
          · rw [if_pos h]
            unfold matchesScheduled
            simp
          · rw [if_neg h]
            exact fun h2 => h2))
        (hinv d0 t0)
  · unfold AppointmentManager.update_appointment_notes
    intro d0 t0
    dsimp only
    split <;>
      exact le_of_eq_of_le
        (countP_map_eq _ _ _ (fun a => by
          by_cases h : matchesScheduled date time a = true
          · rw [if_pos h]
            unfold matchesScheduled at *
            simp_all
          · rw [if_neg h]))
        (hinv d0 t0)
  · intro hne
    unfold AppointmentManager.schedule_appointment at hne ⊢
    cases hv : AppointmentManager.is_valid_datetime date time now with
    | false =>
      exfalso
      apply hne
      rw [if_pos (by simp [hv])]
    | true =>
      cases ha : AppointmentManager.is_available db now date time with
      | false =>
        exfalso
        apply hne
        rw [if_neg (by simp [hv]), if_pos (by simp [ha])]
      | true =>
        refine ⟨rfl, ?_, ?_⟩
        · unfold AppointmentManager.is_available at ha
          simp only [Bool.and_eq_true] at ha
          exact ha.2
        · rw [if_neg (by simp [hv]), if_neg (by simp [ha])]
          rfl

/-- Witness for C1 at a concrete store and input. -/
theorem engine_ops_preserve_unique_scheduled_witness :
    UniqueScheduled
      (AppointmentManager.schedule_appointment []
        (absMinutes ⟨⟨2025, 1, 6⟩, 480⟩)
        "2025-01-06" "09:30" "Dr. Smith" "").1 :=
  (engine_ops_preserve_unique_scheduled [] (absMinutes ⟨⟨2025, 1, 6⟩, 480⟩)
    "2025-01-06" "09:30" "Dr. Smith" ""
    (fun d t => by simp [List.countP_nil])).1


/-- C2 counterexample: with a `'scheduled'` row already stored at
`("2025-01-06", "09:00")`, the store insert for the same key still
reports success and a second `'scheduled'` row for that key exists
afterwards — refuting "fails and does not add a second record". -/
theorem add_appointment_duplicate_insert_succeeds :
    (DatabaseManager.add_appointment
        [⟨"2025-01-06", "09:00", "Dr. Smith", "", Status.scheduled⟩]
        "2025-01-06" "09:00" "Dr. Jones" "").2 = true ∧
    (DatabaseManager.add_appointment
        [⟨"2025-01-06", "09:00", "Dr. Smith", "", Status.scheduled⟩]
        "2025-01-06" "09:00" "Dr. Jones" "").1.countP
      (matchesScheduled "2025-01-06" "09:00") = 2 := by
  constructor
  · rfl
  · decide

/-- C2 amended: `add_appointment` is an unconditional `INSERT`: it always
reports success and appends exactly the new `'scheduled'` row, so when a
`'scheduled'` record already exists at `(date, time)` the call still
succeeds and the key afterwards holds two `'scheduled'` records;
store-level uniqueness is not enforced (the engine's prior
`check_availability` is the only guard). -/
theorem add_appointment_unconditional
    (db : Db) (date time doctor notes : String) :
    (DatabaseManager.add_appointment db date time doctor notes).2 = true ∧
    (DatabaseManager.add_appointment db date time doctor notes).1 =
      db ++ [⟨date, time, doctor, notes, Status.scheduled⟩] ∧
    (1 ≤ db.countP (matchesScheduled date time) →
      2 ≤ (DatabaseManager.add_appointment db date time doctor notes).1.countP
        (matchesScheduled date time)) := by
  refine ⟨rfl, rfl, ?_⟩
  intro h
  have heq : (DatabaseManager.add_appointment db date time doctor notes).1 =
      db ++ [Row.mk date time doctor notes Status.scheduled] := rfl
  have hone : List.countP (matchesScheduled date time)
      [Row.mk date time doctor notes Status.scheduled] = 1 := by
    simp [List.countP_cons, matchesScheduled]
  rw [heq, List.countP_append, hone]
  omega

/-- Witness for the amended C2 at a concrete occupied store. -/
theorem add_appointment_unconditional_witness :
    2 ≤ (DatabaseManager.add_appointment
        [⟨"2025-01-06", "09:00", "Dr. Taylor", "", Status.scheduled⟩]
        "2025-01-06" "09:00" "Dr. Brown" "notes").1.countP
      (matchesScheduled "2025-01-06" "09:00") :=
  (add_appointment_unconditional
    [⟨"2025-01-06", "09:00", "Dr. Taylor", "", Status.scheduled⟩]
    "2025-01-06" "09:00" "Dr. Brown" "notes").2.2 (by decide)

/-- C8: engine `cancel_appointment` is a soft delete with clean failure:
when a `'scheduled'` row exists at the stored key it succeeds with the
success message, keeps every row (same length), keeps the cancelled
version of each matching row, and leaves no `'scheduled'` row at the key;
when none exists it fails with "No appointment found for the specified
time" and leaves the store unchanged; and a repeated cancel of the same
key always fails with that message. -/
theorem cancel_soft_delete_and_second_cancel_fails
    (db : Db) (date time : String) :
    ((∃ r ∈ db, matchesScheduled date time r = true) →
      (AppointmentManager.cancel_appointment db date time).2.1 = true ∧
      (AppointmentManager.cancel_appointment db date time).2.2 =
        "Appointment cancelled successfully" ∧
      (AppointmentManager.cancel_appointment db date time).1.length =
        db.length ∧
      (∀ r ∈ db, matchesScheduled date time r = true →
        ({ r with status := Status.cancelled } : Row) ∈
          (AppointmentManager.cancel_appointment db date time).1) ∧
      (∀ r2 ∈ (AppointmentManager.cancel_appointment db date time).1,
        matchesScheduled date time r2 = false)) ∧
    ((∀ r ∈ db, matchesScheduled date time r = false) →
      AppointmentManager.cancel_appointment db date time =
        (db, false, "No appointment found for the specified time")) ∧
    (AppointmentManager.cancel_appointment
        (AppointmentManager.cancel_appointment db date time).1 date time =
      ((AppointmentManager.cancel_appointment db date time).1, false,
        "No appointment found for the specified time")) := by
  have hfst : (AppointmentManager.cancel_appointment db date time).1 =
      (DatabaseManager.cancel_appointment db date time).1 := by
    unfold AppointmentManager.cancel_appointment
    dsimp only
    split <;> rfl
  have hwrap : ∀ db2 : Db,
      (∀ r ∈ db2, matchesScheduled date time r = false) →
      AppointmentManager.cancel_appointment db2 date time =
        (db2, false, "No appointment found for the specified time") := by
    intro db2 h2
    unfold AppointmentManager.cancel_appointment
    rw [cancel_of_no_match h2]
    rfl
  have hnomatch : ∀ r2 ∈ (DatabaseManager.cancel_appointment db date time).1,
      matchesScheduled date time r2 = false := cancel_map_no_match
  refine ⟨?_, ?_, ?_⟩
  · intro hex
    have hpos : 0 < db.countP (matchesScheduled date time) :=
      List.countP_pos_iff.mpr (by
        obtain ⟨r, hr, hm⟩ := hex
        exact ⟨r, hr, hm⟩)
    have hsucc : (DatabaseManager.cancel_appointment db date time).2 = true := by
      unfold DatabaseManager.cancel_appointment
      simp [hpos]
    refine ⟨?_, ?_, ?_, ?_, ?_⟩
    · unfold AppointmentManager.cancel_appointment
      dsimp only
      rw [if_pos hsucc]
    · unfold AppointmentManager.cancel_appointment
      dsimp only
      rw [if_pos hsucc]
    · rw [hfst]
      unfold DatabaseManager.cancel_appointment
      simp
    · intro r hr hm
      rw [hfst]
      unfold DatabaseManager.cancel_appointment
      dsimp only
      rw [List.mem_map]
      exact ⟨r, hr, by rw [if_pos hm]⟩
    · rw [hfst]
      exact hnomatch
  · intro hnone
    exact hwrap db hnone
  · rw [hfst]
    exact hwrap _ hnomatch

/-- Witness for C8: one scheduled row is cancelled and retained; the
repeated cancel fails. -/
theorem cancel_soft_delete_witness :
    (AppointmentManager.cancel_appointment
        [⟨"2025-01-06", "09:30", "Dr. Smith", "", Status.scheduled⟩]
        "2025-01-06" "09:30").2.1 = true ∧
    (AppointmentManager.cancel_appointment
        [⟨"2025-01-06", "09:30", "Dr. Smith", "", Status.scheduled⟩]
        "2025-01-06" "09:30").1.length = 1 ∧
    AppointmentManager.cancel_appointment
        (AppointmentManager.cancel_appointment
          [⟨"2025-01-06", "09:30", "Dr. Smith", "", Status.scheduled⟩]
          "2025-01-06" "09:30").1 "2025-01-06" "09:30" =
      ((AppointmentManager.cancel_appointment
          [⟨"2025-01-06", "09:30", "Dr. Smith", "", Status.scheduled⟩]
          "2025-01-06" "09:30").1, false,
        "No appointment found for the specified time") := by
  have h := cancel_soft_delete_and_second_cancel_fails
    [⟨"2025-01-06", "09:30", "Dr. Smith", "", Status.scheduled⟩]
    "2025-01-06" "09:30"
  have h1 := h.1 (by decide)
  exact ⟨h1.1, h1.2.2.1, h.2.2⟩


instance rowTimeLeTotal :
    IsTotal Row (fun a b : Row => a.time ≤ b.time) :=
  ⟨fun a b => le_total a.time b.time⟩

instance rowTimeLeTrans :
    IsTrans Row (fun a b : Row => a.time ≤ b.time) :=
  ⟨fun _ _ _ h1 h2 => le_trans h1 h2⟩

/-- C9: `list(date)` returns exactly the stored rows of that date with
status `'scheduled'` (as a permutation of the table filter), sorted
ascending by the stored time; every returned row is `'scheduled'` and of
the requested date, so no cancelled row ever appears. -/
theorem get_appointments_scheduled_sorted (db : Db) (date : String) :
    (AppointmentManager.get_appointments db date).Perm
      (db.filter (fun r => r.date == date && r.status == Status.scheduled)) ∧
    List.Sorted (fun a b : Row => a.time ≤ b.time)
      (AppointmentManager.get_appointments db date) ∧
    (AppointmentManager.get_appointments db date).all
      (fun r => r.date == date && r.status == Status.scheduled) = true := by
  unfold AppointmentManager.get_appointments DatabaseManager.get_appointments
  refine ⟨List.perm_insertionSort _ _, List.sorted_insertionSort _ _, ?_⟩
  rw [List.all_eq_true]
  intro r hr
  rw [List.mem_insertionSort] at hr
  exact (List.mem_filter.mp hr).2

/-- Characterization of the slot validator, shared by several claims. -/
lemma is_valid_datetime_iff (date time : String) (now : Nat) :
    AppointmentManager.is_valid_datetime date time now = true ↔
      ∃ dt : PyDateTime,
        parseCombined (date ++ " " ++ time).data = some dt ∧
        now + 60 * AppointmentManager.MIN_SCHEDULE_NOTICE ≤ absMinutes dt ∧
        AppointmentManager.WORKING_HOURS_START ≤ dt.hour ∧
        dt.hour < AppointmentManager.WORKING_HOURS_END ∧
        pyWeekday dt.date < 5 := by
  unfold AppointmentManager.is_valid_datetime
  rcases hp : parseCombined (date ++ " " ++ time).data with _ | dt
  · simp
  · constructor
    · intro h
      dsimp only at h
      by_cases c1 : absMinutes dt <
          now + 60 * AppointmentManager.MIN_SCHEDULE_NOTICE
      · rw [if_pos c1] at h
        exact absurd h (by simp)
      · rw [if_neg c1] at h
        by_cases c2 : (decide (dt.hour < AppointmentManager.WORKING_HOURS_START)
            || decide (AppointmentManager.WORKING_HOURS_END ≤ dt.hour)) = true
        · rw [if_pos c2] at h
          exact absurd h (by simp)
        · rw [if_neg c2] at h
          by_cases c3 : 5 ≤ pyWeekday dt.date
          · rw [if_pos c3] at h
            exact absurd h (by simp)
          · simp only [Bool.or_eq_true, decide_eq_true_eq, not_or, not_lt,
              not_le] at c2
            exact ⟨dt, rfl, by omega, c2.1, c2.2, by omega⟩
    · rintro ⟨dt2, hdt2, hnotice, hh1, hh2, hw⟩
      have hdd : dt = dt2 := by injection hdt2
      subst hdd
      dsimp only
      rw [if_neg (by omega)]
      rw [if_neg (show ¬((decide (dt.hour < AppointmentManager.WORKING_HOURS_START)
          || decide (AppointmentManager.WORKING_HOURS_END ≤ dt.hour)) = true) by
        simp only [Bool.or_eq_true, decide_eq_true_eq]
        omega)]
      rw [if_neg (by omega)]

/-- C5: the slot validator returns a boolean determined exactly by the
four rules — it is `true` iff the combined string parses as a calendar
date plus 24-hour time-of-day, the instant is at least `now` plus the
minimum notice, the hour-of-day lies in the working-hours window
(end-exclusive), and the weekday is not Saturday or Sunday; in
particular every parse failure and every rule violation yields `false`
rather than an exception. -/
theorem is_valid_datetime_characterization (date time : String) (now : Nat) :
    AppointmentManager.is_valid_datetime date time now = true ↔
      ∃ dt : PyDateTime,
        parseCombined (date ++ " " ++ time).data = some dt ∧
        now + 60 * AppointmentManager.MIN_SCHEDULE_NOTICE ≤ absMinutes dt ∧
        AppointmentManager.WORKING_HOURS_START ≤ dt.hour ∧
        dt.hour < AppointmentManager.WORKING_HOURS_END ∧
        pyWeekday dt.date < 5 :=
  is_valid_datetime_iff date time now

/-- C3 counterexample: with `now` at Monday 2025-01-06 08:00, the request
for 2025-01-06 09:00 lies exactly at `now` + the one-hour minimum notice,
and the validator accepts it — refuting the claimed strict boundary
(that a request exactly at the notice boundary is invalid). -/
theorem notice_boundary_instant_accepted :
    absMinutes ⟨⟨2025, 1, 6⟩, 540⟩ =
      absMinutes ⟨⟨2025, 1, 6⟩, 480⟩ +
        60 * AppointmentManager.MIN_SCHEDULE_NOTICE ∧
    AppointmentManager.is_valid_datetime "2025-01-06" "09:00"
      (absMinutes ⟨⟨2025, 1, 6⟩, 480⟩) = true := by
  constructor
  · decide
  · decide

/-- C3 amended: the notice comparison is strict on the "too early" side
only — an instant earlier than `now + notice` is rejected, while an
instant exactly at `now + notice` passes the notice check (it is valid
whenever the working-hours and weekday rules also hold). -/
theorem notice_check_rejects_strictly_before (date time : String)
    (now : Nat) (dt : PyDateTime)
    (hp : parseCombined (date ++ " " ++ time).data = some dt) :
    (absMinutes dt < now + 60 * AppointmentManager.MIN_SCHEDULE_NOTICE →
      AppointmentManager.is_valid_datetime date time now = false) ∧
    (absMinutes dt = now + 60 * AppointmentManager.MIN_SCHEDULE_NOTICE →
      AppointmentManager.WORKING_HOURS_START ≤ dt.hour →
      dt.hour < AppointmentManager.WORKING_HOURS_END →
      pyWeekday dt.date < 5 →
      AppointmentManager.is_valid_datetime date time now = true) := by
  constructor
  · intro hlt
    unfold AppointmentManager.is_valid_datetime
    rw [hp]
    dsimp only
    rw [if_pos hlt]
  · intro heq hh1 hh2 hw
    rw [is_valid_datetime_iff]
    exact ⟨dt, hp, by omega, hh1, hh2, hw⟩

/-- Witness for the amended C3: a request 30 minutes ahead is rejected;
a request exactly one hour ahead is accepted. -/
theorem notice_check_rejects_strictly_before_witness :
    AppointmentManager.is_valid_datetime "2025-01-06" "09:00"
      (absMinutes ⟨⟨2025, 1, 6⟩, 510⟩) = false ∧
    AppointmentManager.is_valid_datetime "2025-01-06" "09:00"
      (absMinutes ⟨⟨2025, 1, 6⟩, 480⟩) = true := by
  constructor
  · exact (notice_check_rejects_strictly_before "2025-01-06" "09:00"
      (absMinutes ⟨⟨2025, 1, 6⟩, 510⟩) ⟨⟨2025, 1, 6⟩, 540⟩ (by decide)).1
      (by decide)
  · exact (notice_check_rejects_strictly_before "2025-01-06" "09:00"
      (absMinutes ⟨⟨2025, 1, 6⟩, 480⟩) ⟨⟨2025, 1, 6⟩, 540⟩ (by decide)).2
      (by decide) (by decide) (by decide) (by decide)


/-! ### Next-slot scan lemmas -/

lemma find?_append_cases {α : Type} (l1 l2 : List α) (p : α → Bool) :
    (l1 ++ l2).find? p =
      (match l1.find? p with
       | some a => some a
       | none => l2.find? p) := by
  induction l1 with
  | nil => simp
  | cons a l ih =>
    simp only [List.cons_append, List.find?]
    cases p a <;> simp [ih]

lemma scanTimes_eq_find (db : Db) (now : Nat) (d : PyDate) :
    ∀ k t, AppointmentManager.scanTimes db now d k t =
      (sweepTimes d k t).find?
        (fun p => AppointmentManager.is_available db now p.1 p.2) := by
  intro k
  induction k with
  | zero => intro t; rfl
  | succ k ih =>
    intro t
    unfold AppointmentManager.scanTimes sweepTimes
    split
    · cases hava : AppointmentManager.is_available db now (formatDate d)
          (formatClock t) with
      | true => simp [List.find?, hava]
      | false => simp [List.find?, hava, ih]
    · rfl

set_option maxHeartbeats 2000000 in
lemma scanDays_eq_find (db : Db) (now : Nat) :
    ∀ k d, AppointmentManager.scanDays db now k d =
      (sweepDays k d).find?
        (fun p => AppointmentManager.is_available db now p.1 p.2) := by
  intro k
  induction k with
  | zero => intro d; rfl
  | succ k ih =>
    intro d
    simp only [AppointmentManager.scanDays, sweepDays]
    rw [scanTimes_eq_find, find?_append_cases]
    cases hst : (sweepTimes d 17 (AppointmentManager.WORKING_HOURS_START * 60)).find?
        (fun p => AppointmentManager.is_available db now p.1 p.2) with
    | some p => rfl
    | none =>
      cases hnd : nextDayO d with
      | none => rfl
      | some d2 => simp [ih]

/-- C7: `get_next_available_slot` performs the deterministic forward
scan: starting from the parsed `from_date`, over 30 consecutive days,
each day swept from working-hours start in appointment-duration steps
strictly below working-hours end, it returns exactly the first examined
pair for which `is_available` holds (`find?` over the scan order) and
`none` when no pair in the 30-day horizon is available; any returned
pair satisfies the slot validator. -/
theorem get_next_available_slot_characterization (db : Db) (now : Nat)
    (date : String) (d : PyDate) (hp : parseDateOnly date.data = some d) :
    AppointmentManager.get_next_available_slot db now date =
      (sweepDays 30 d).find?
        (fun p => AppointmentManager.is_available db now p.1 p.2) ∧
    Option.all (fun p => AppointmentManager.is_valid_datetime p.1 p.2 now)
      (AppointmentManager.get_next_available_slot db now date) = true := by
  have heq : AppointmentManager.get_next_available_slot db now date =
      AppointmentManager.scanDays db now 30 d := by
    unfold AppointmentManager.get_next_available_slot
    rw [hp]
  refine ⟨by rw [heq, scanDays_eq_find], ?_⟩
  rw [heq, scanDays_eq_find]
  cases hf : (sweepDays 30 d).find?
      (fun p => AppointmentManager.is_available db now p.1 p.2) with
  | none => rfl
  | some p =>
    have hava := List.find?_some hf
    unfold AppointmentManager.is_available at hava
    simp only [Bool.and_eq_true] at hava
    simp [Option.all, hava.1]

/-- Witness for C7 at a concrete empty store and Monday morning clock. -/
theorem get_next_available_slot_characterization_witness :
    AppointmentManager.get_next_available_slot []
        (absMinutes ⟨⟨2025, 1, 6⟩, 480⟩) "2025-01-06" =
      (sweepDays 30 ⟨2025, 1, 6⟩).find?
        (fun p => AppointmentManager.is_available []
          (absMinutes ⟨⟨2025, 1, 6⟩, 480⟩) p.1 p.2) ∧
    Option.all
      (fun p => AppointmentManager.is_valid_datetime p.1 p.2
        (absMinutes ⟨⟨2025, 1, 6⟩, 480⟩))
      (AppointmentManager.get_next_available_slot []
        (absMinutes ⟨⟨2025, 1, 6⟩, 480⟩) "2025-01-06") = true :=
  get_next_available_slot_characterization []
    (absMinutes ⟨⟨2025, 1, 6⟩, 480⟩) "2025-01-06" ⟨2025, 1, 6⟩ (by decide)


/-! ### Suggestion-loop lemmas -/

lemma skipWeekendsO_spec :
    ∀ (k : Nat) (c c3 : PyDateTime), ValidDate c.date → c.date.year ≤ 9999 →
    c.minute < 1440 → AppointmentManager.skipWeekendsO k c = some c3 →
    ValidDate c3.date ∧ c3.date.year ≤ 9999 ∧ c3.minute < 1440 ∧
      absMinutes c ≤ absMinutes c3 := by
  intro k
  induction k with
  | zero =>
    intro c c3 hv hy hm h
    simp only [AppointmentManager.skipWeekendsO, Option.some.injEq] at h
    subst h
    exact ⟨hv, hy, hm, le_refl _⟩
  | succ k ih =>
    intro c c3 hv hy hm h
    unfold AppointmentManager.skipWeekendsO at h
    split at h
    · cases hnd : nextDayO c.date with
      | none => rw [hnd] at h; simp at h
      | some d2 =>
        rw [hnd] at h
        simp only [Option.some_bind] at h
        obtain ⟨hv2, hy2, hord2⟩ := nextDayO_spec hv hy hnd
        obtain ⟨hv3, hy3, hm3, hle3⟩ := ih ⟨d2, AppointmentManager.WORKING_HOURS_START * 60⟩ c3
          hv2 hy2 (by simp [AppointmentManager.WORKING_HOURS_START]) h
        refine ⟨hv3, hy3, hm3, le_trans ?_ hle3⟩
        unfold absMinutes
        simp only
        rw [hord2]
        simp [AppointmentManager.WORKING_HOURS_START]
        omega
    · simp only [Option.some.injEq] at h
      subst h
      exact ⟨hv, hy, hm, le_refl _⟩

lemma stepCandidate_spec {c c3 : PyDateTime} (hv : ValidDate c.date)
    (hy : c.date.year ≤ 9999) (_hm : c.minute < 1440)
    (h : AppointmentManager.stepCandidate c = some c3) :
    ValidDate c3.date ∧ c3.date.year ≤ 9999 ∧ c3.minute < 1440 ∧
      absMinutes c < absMinutes c3 := by
  unfold AppointmentManager.stepCandidate at h
  cases ha : addMinutesO c AppointmentManager.APPOINTMENT_DURATION with
  | none => rw [ha] at h; simp at h
  | some c1 =>
    rw [ha] at h
    obtain ⟨hv1, hy1, hm1, habs1⟩ := addMinutesO_spec hv hy ha
    have hdur : absMinutes c1 = absMinutes c + 30 := by
      rw [habs1]
      rfl
    dsimp only at h
    split at h
    · exact absurd h (by simp)
    · rename_i c2 heq
      split at heq
      · cases hnd : nextDayO c1.date with
        | none => rw [hnd] at heq; simp at heq
        | some d2 =>
          rw [hnd] at heq
          simp only [Option.map_some', Option.some.injEq] at heq
          subst heq
          obtain ⟨hv2, hy2, hord2⟩ := nextDayO_spec hv1 hy1 hnd
          obtain ⟨hv3, hy3, hm3, hle3⟩ := skipWeekendsO_spec 7
            ⟨d2, AppointmentManager.WORKING_HOURS_START * 60⟩ c3 hv2 hy2
            (by simp [AppointmentManager.WORKING_HOURS_START]) h
          refine ⟨hv3, hy3, hm3, lt_of_lt_of_le ?_ hle3⟩
          unfold absMinutes at hdur ⊢
          simp only
          rw [hord2]
          simp only [AppointmentManager.WORKING_HOURS_START]
          omega
      · simp only [Option.some.injEq] at heq
        subst heq
        obtain ⟨hv3, hy3, hm3, hle3⟩ := skipWeekendsO_spec 7 c1 c3 hv1 hy1 hm1 h
        exact ⟨hv3, hy3, hm3, by omega⟩


lemma slotMinutes_format {c : PyDateTime} (hv : ValidDate c.date)
    (hy : c.date.year ≤ 9999) (hm : c.minute < 1440) :
    slotMinutes (formatDate c.date, formatClock c.minute) = absMinutes c := by
  unfold slotMinutes
  have hrt := parse_format_roundtrip hv hy hm
  simp only
  rw [hrt]

lemma slotOk_of_available {db : Db} {now : Nat} {c : PyDateTime}
    (hv : ValidDate c.date) (hy : c.date.year ≤ 9999) (hm : c.minute < 1440)
    (hava : AppointmentManager.is_available db now (formatDate c.date)
      (formatClock c.minute) = true) :
    slotOk (formatDate c.date, formatClock c.minute) = true := by
  unfold AppointmentManager.is_available at hava
  simp only [Bool.and_eq_true] at hava
  obtain ⟨dt, hp, _, hh1, hh2, hw⟩ :=
    (is_valid_datetime_iff (formatDate c.date) (formatClock c.minute) now).mp
      hava.1
  have hrt := parse_format_roundtrip hv hy hm
  have : dt = c := by
    rw [hrt] at hp
    injection hp with h
    exact h.symm
  subst this
  unfold slotOk
  simp only
  rw [hrt]
  simp only [Bool.and_eq_true, decide_eq_true_eq]
  exact ⟨⟨hh1, hh2⟩, hw⟩

/-- The collection-loop invariant: from a valid in-range cursor and an
accumulator of sound, chronologically increasing slots bounded by the
cursor, a terminating run yields a list within the quota whose members
are sound, strictly increasing, and strictly after `start`. -/
lemma suggestLoop_invariant (db : Db) (now : Nat) (n : Nat) (start : Nat) :
    ∀ (fuel : Nat) (cur : PyDateTime) (acc l : List (String × String)),
    ValidDate cur.date → cur.date.year ≤ 9999 → cur.minute < 1440 →
    start ≤ absMinutes cur →
    acc.length ≤ min n 10 →
    (∀ p ∈ acc, slotOk p = true) →
    List.Pairwise (fun p q => slotMinutes p < slotMinutes q) acc →
    (∀ p ∈ acc, start < slotMinutes p ∧ slotMinutes p ≤ absMinutes cur) →
    AppointmentManager.suggestLoop db now n cur acc fuel = some l →
    l.length ≤ min n 10 ∧ (∀ p ∈ l, slotOk p = true) ∧
      List.Pairwise (fun p q => slotMinutes p < slotMinutes q) l ∧
      (∀ p ∈ l, start < slotMinutes p) := by
  intro fuel
  induction fuel with
  | zero =>
    intro cur acc l _ _ _ _ _ _ _ _ h
    simp [AppointmentManager.suggestLoop] at h
  | succ fuel ih =>
    intro cur acc l hv hy hm hstart hlen hok hpw hbounds h
    unfold AppointmentManager.suggestLoop at h
    split at h
    · rename_i hcond
      simp only [Bool.and_eq_true, decide_eq_true_eq] at hcond
      cases hstep : AppointmentManager.stepCandidate cur with
      | none =>
        rw [hstep] at h
        simp only [Option.some.injEq] at h
        subst h
        exact ⟨by simp, by simp, by simp, by simp⟩
      | some c3 =>
        rw [hstep] at h
        dsimp only at h
        obtain ⟨hv3, hy3, hm3, hlt3⟩ := stepCandidate_spec hv hy hm hstep
        have hsm := slotMinutes_format hv3 hy3 hm3
        by_cases hava : AppointmentManager.is_available db now
            (formatDate c3.date) (formatClock c3.minute) = true
        · rw [if_pos hava] at h
          refine ih c3 (acc ++ [(formatDate c3.date, formatClock c3.minute)]) l
            hv3 hy3 hm3 (by omega) ?_ ?_ ?_ ?_ h
          · rw [List.length_append]
            simp only [List.length_singleton]
            omega
          · intro p hp
            rw [List.mem_append] at hp
            rcases hp with hp | hp
            · exact hok p hp
            · simp only [List.mem_singleton] at hp
              subst hp
              exact slotOk_of_available hv3 hy3 hm3 hava
          · rw [List.pairwise_append]
            refine ⟨hpw, by simp, ?_⟩
            intro p hp q hq
            simp only [List.mem_singleton] at hq
            subst hq
            have := (hbounds p hp).2
            rw [hsm]
            omega
          · intro p hp
            rw [List.mem_append] at hp
            rcases hp with hp | hp
            · have := hbounds p hp
              exact ⟨this.1, by omega⟩
            · simp only [List.mem_singleton] at hp
              subst hp
              rw [hsm]
              omega
        · rw [if_neg hava] at h
          refine ih c3 acc l hv3 hy3 hm3 (by omega) hlen hok hpw ?_ h
          intro p hp
          have := hbounds p hp
          exact ⟨this.1, by omega⟩
    · simp only [Option.some.injEq] at h
      subst h
      exact ⟨hlen, hok, hpw, fun p hp => (hbounds p hp).1⟩

/-- C6: any list `suggest_alternative_slots` returns contains at most
`num_suggestions` slot pairs; each pair parses back to an instant within
working hours on a working weekday (the `is_available` guard filters
every emitted candidate); the pairs are strictly increasing
chronologically; and no pair occurs twice. -/
theorem suggest_alternatives_output_sound (db : Db) (now : Nat)
    (date time : String) (n fuel : Nat) :
    ((AppointmentManager.suggest_alternative_slots db now date time n
        fuel).getD []).length ≤ n ∧
    (∀ p ∈ (AppointmentManager.suggest_alternative_slots db now date time n
        fuel).getD [], slotOk p = true) ∧
    List.Pairwise (fun p q => slotMinutes p < slotMinutes q)
      ((AppointmentManager.suggest_alternative_slots db now date time n
        fuel).getD []) ∧
    ((AppointmentManager.suggest_alternative_slots db now date time n
        fuel).getD []).Nodup := by
  unfold AppointmentManager.suggest_alternative_slots
  cases hp : parseCombined (date ++ " " ++ time).data with
  | none => simp
  | some dt =>
    dsimp only
    cases hloop : AppointmentManager.suggestLoop db now n dt [] fuel with
    | none => simp
    | some l =>
      simp only [Option.getD_some]
      obtain ⟨hvd, hyd, hmd⟩ := parseCombined_some_spec hp
      obtain ⟨hlen, hok, hpw, _⟩ := suggestLoop_invariant db now n
        (absMinutes dt) fuel dt [] l hvd hyd hmd (le_refl _) (by simp)
        (by simp) (by simp) (by simp) hloop
      refine ⟨by omega, hok, hpw, ?_⟩
      exact List.Pairwise.imp (fun hlt heq => by
        rw [heq] at hlt
        exact lt_irrefl _ hlt) hpw

/-- C10: the requested `(date, time)` pair itself never appears in the
output of `suggest_alternative_slots` — the first candidate examined is
already one appointment-duration step after the requested instant, and
every emitted slot parses strictly after it. -/
theorem suggest_alternatives_excludes_requested (db : Db) (now : Nat)
    (date time : String) (n fuel : Nat) :
    (date, time) ∉
      (AppointmentManager.suggest_alternative_slots db now date time n
        fuel).getD [] := by
  unfold AppointmentManager.suggest_alternative_slots
  cases hp : parseCombined (date ++ " " ++ time).data with
  | none => simp
  | some dt =>
    dsimp only
    cases hloop : AppointmentManager.suggestLoop db now n dt [] fuel with
    | none => simp
    | some l =>
      simp only [Option.getD_some]
      intro hmem
      obtain ⟨hvd, hyd, hmd⟩ := parseCombined_some_spec hp
      obtain ⟨_, _, _, hgt⟩ := suggestLoop_invariant db now n
        (absMinutes dt) fuel dt [] l hvd hyd hmd (le_refl _) (by simp)
        (by simp) (by simp) (by simp) hloop
      have h1 := hgt (date, time) hmem
      have h2 : slotMinutes (date, time) = absMinutes dt := by
        unfold slotMinutes
        simp only
        rw [hp]
      omega


lemma suggestLoop_length (db : Db) (now : Nat) (n : Nat) :
    ∀ (fuel : Nat) (cur : PyDateTime) (acc l : List (String × String)),
    acc.length ≤ min n 10 →
    AppointmentManager.suggestLoop db now n cur acc fuel = some l →
    l.length ≤ min n 10 := by
  intro fuel
  induction fuel with
  | zero =>
    intro cur acc l _ h
    simp [AppointmentManager.suggestLoop] at h
  | succ fuel ih =>
    intro cur acc l hlen h
    unfold AppointmentManager.suggestLoop at h
    split at h
    · rename_i hcond
      simp only [Bool.and_eq_true, decide_eq_true_eq] at hcond
      cases hstep : AppointmentManager.stepCandidate cur with
      | none =>
        rw [hstep] at h
        simp only [Option.some.injEq] at h
        subst h
        simp
      | some c3 =>
        rw [hstep] at h
        dsimp only at h
        by_cases hava : AppointmentManager.is_available db now
            (formatDate c3.date) (formatClock c3.minute) = true
        · rw [if_pos hava] at h
          refine ih c3 _ l ?_ h
          rw [List.length_append]
          simp only [List.length_singleton]
          omega
        · rw [if_neg hava] at h
          exact ih c3 acc l hlen h
    · simp only [Option.some.injEq] at h
      subst h
      exact hlen

/-- C4 counterexample: with the clock set to 2025-02-01 00:00 (so that
every near-term candidate fails the validity check) and an empty store,
the suggestion loop for a 2025-01-06 09:00 request is still running
after 11 iterations — that is, it has already examined more than 10
candidate slots without terminating, refuting "examines at most a fixed
maximum number of candidate slots (10) and therefore terminates". -/
theorem suggest_loop_exceeds_ten_candidates :
    AppointmentManager.suggest_alternative_slots []
      (absMinutes ⟨⟨2025, 2, 1⟩, 0⟩) "2025-01-06" "09:00" 1 11 = none := by
  decide

/-- C4 amended: the bound of 10 in the loop condition caps the number of
suggestions collected, not the number of candidates examined — whenever
the loop terminates with a list, that list holds at most
`min num_suggestions 10` slots, but the loop examines an unbounded
number of candidates while none is available: in the scenario of the
counterexample it is still running after 50 candidates. -/
theorem suggest_bound_caps_collected_not_examined :
    (∀ (db : Db) (now : Nat) (date time : String) (n fuel : Nat)
        (l : List (String × String)),
      AppointmentManager.suggest_alternative_slots db now date time n fuel =
        some l → l.length ≤ min n 10) ∧
    AppointmentManager.suggest_alternative_slots []
      (absMinutes ⟨⟨2025, 2, 1⟩, 0⟩) "2025-01-06" "09:00" 1 50 = none := by
  constructor
  · intro db now date time n fuel l h
    unfold AppointmentManager.suggest_alternative_slots at h
    cases hp : parseCombined (date ++ " " ++ time).data with
    | none =>
      rw [hp] at h
      simp only [Option.some.injEq] at h
      subst h
      simp
    | some dt =>
      rw [hp] at h
      exact suggestLoop_length db now n fuel dt [] l (by simp) h
  · decide

/-- Witness for the amended C4: a run that terminates with three
suggestions respects the `min n 10` cap. -/
theorem suggest_bound_caps_collected_witness :
    ([("2025-01-06", "09:30"), ("2025-01-06", "10:00"),
      ("2025-01-06", "10:30")] : List (String × String)).length ≤ min 3 10 :=
  suggest_bound_caps_collected_not_examined.1 []
    (absMinutes ⟨⟨2025, 1, 6⟩, 480⟩) "2025-01-06" "09:00" 3 5 _ (by decide)

/-- Witness for C5 at a concrete valid slot. -/
theorem is_valid_datetime_characterization_witness :
    AppointmentManager.is_valid_datetime "2025-01-06" "09:30"
      (absMinutes ⟨⟨2025, 1, 6⟩, 480⟩) = true :=
  (is_valid_datetime_characterization "2025-01-06" "09:30"
      (absMinutes ⟨⟨2025, 1, 6⟩, 480⟩)).mpr
    ⟨⟨⟨2025, 1, 6⟩, 570⟩, by decide, by decide, by decide, by decide,
      by decide⟩

/-- Witness for C6 at a concrete produced slot. -/
theorem suggest_alternatives_output_sound_witness :
    slotOk ("2025-01-06", "09:30") = true :=
  (suggest_alternatives_output_sound []
      (absMinutes ⟨⟨2025, 1, 6⟩, 480⟩) "2025-01-06" "09:00" 3 5).2.1
    ("2025-01-06", "09:30") (by decide)

/-- Witness for C10 at a concrete run whose output is nonempty. -/
theorem suggest_alternatives_excludes_requested_witness :
    ("2025-01-06", "09:00") ∉
      (AppointmentManager.suggest_alternative_slots []
        (absMinutes ⟨⟨2025, 1, 6⟩, 480⟩) "2025-01-06" "09:00" 3 5).getD [] :=
  suggest_alternatives_excludes_requested []
    (absMinutes ⟨⟨2025, 1, 6⟩, 480⟩) "2025-01-06" "09:00" 3 5

end HVA
